import Mathlib

/-!
Verification of the snapshot-diffing and change-report engine of the
listing-application notifier (source: src/app.py).

The embedding models a pandas DataFrame of string cells as a `Frame`:
an ordered list of column names plus an ordered list of rows, each row
carrying its index label (the uid) and the cell values aligned with the
columns.  A cell value is `Option String`; `none` models a pandas NaN
(absent value), `some s` a string value.  All functions below are
translated from the corresponding pandas operations in src/app.py.
-/

set_option autoImplicit false

namespace TwNotifier

/-- A cell value: `none` models a pandas NaN (absent), `some s` a string. -/
abbrev Value := Option String

/-- An in-memory table as produced by clean_listing_df / pd.read_csv:
ordered column names plus ordered rows of (uid index label, values
aligned positionally with the columns). -/
structure Frame where
  cols : List String
  rows : List (String × List Value)
deriving DecidableEq

/-- The index of the frame, i.e. the uid of every row in row order. -/
def Frame.uids (f : Frame) : List String :=
  f.rows.map Prod.fst

/-- Membership of a label in the index (one entry of index.isin). -/
def Frame.hasUid (f : Frame) (u : String) : Bool :=
  f.uids.contains u

/-- Row lookup by index label (first match; unique under the uid invariant). -/
def Frame.row? (f : Frame) (u : String) : Option (List Value) :=
  (f.rows.find? (fun r => r.1 == u)).map Prod.snd

/-- Position of the first occurrence of a column name. -/
def colPos : List String → String → Option Nat
  | [], _ => none
  | c0 :: cs, c => if c0 = c then some 0 else (colPos cs c).map (· + 1)

/-- Cell access df.loc[u, c]: `none` when the row or the column is missing
or when the stored value is NaN. -/
def Frame.cell (f : Frame) (u c : String) : Value :=
  match f.row? u, colPos f.cols c with
  | some vs, some i => vs.getD i none
  | _, _ => none

/-- Write one value at the first occurrence of a column name (no-op when
the column is missing, which is unreachable in the diff loop). -/
def setVals (cols : List String) (vs : List Value) (c : String) (v : Value) :
    List Value :=
  match colPos cols c with
  | some i => vs.set i v
  | none => vs

/-- updated_df.loc[u, c] = v: sets the cell in every row labelled u (the
label is unique under the snapshot invariant).  A missing label would
enlarge the frame in pandas but never occurs in the diff loop, whose
labels all come from the frame itself. -/
def Frame.setCell (f : Frame) (u c : String) (v : Value) : Frame :=
  ⟨f.cols, f.rows.map (fun r => if r.1 == u then (r.1, setVals f.cols r.2 c v) else r)⟩

/-- pandas DataFrame.empty: true when any axis has length 0. -/
def Frame.isEmptyDf (f : Frame) : Bool :=
  f.rows.isEmpty || f.cols.isEmpty

/-- Well-formedness of a frame: every row has exactly one value per column. -/
def Frame.WF (f : Frame) : Prop :=
  ∀ r ∈ f.rows, r.2.length = f.cols.length

/-- The difference mask of pandas compare on one aligned cell:
mask = not (equal or both NaN); on `Option String` this is disequality
(both-NaN pairs are equal as `none = none`). -/
def cellDiff (nv ov : Value) : Bool :=
  nv != ov

/-- One aligned row pair: the new-snapshot row (left) matched with the
old-snapshot row (right) of the same index position. -/
abbrev RowPair := (String × List Value) × (String × List Value)

/-- Does the pair differ in the column at position i. -/
def pairDiffAt (p : RowPair) (i : Nat) : Bool :=
  cellDiff (p.1.2.getD i none) (p.2.2.getD i none)

/-- Column positions kept by compare (keep_shape=False): the columns in
which at least one aligned row differs, in column order. -/
def diffColIdxs (ncols : Nat) (ps : List RowPair) : List Nat :=
  (List.range ncols).filter (fun i => ps.any (fun p => pairDiffAt p i))

/-- Row pairs kept by compare (keep_shape=False): the rows with at least
one differing column, in row order. -/
def diffPairs (ncols : Nat) (ps : List RowPair) : List RowPair :=
  ps.filter (fun p => (List.range ncols).any (fun i => pairDiffAt p i))

/-- One melt triple: (uid, column name, value of the self row).  Inside the
kept rectangle, compare stores the new value where the mask holds and NaN
where it does not (self.where(mask)), so a non-differing rectangle cell
yields a `none` value. -/
abbrev Triple := String × String × Value

/-- The melt rows contributed by one kept column position. -/
def meltBatch (cols : List String) (qs : List RowPair) (i : Nat) : List Triple :=
  qs.map (fun p => (p.1.1, cols.getD i "", if pairDiffAt p i then p.1.2.getD i none else none))

/-- Column-major accumulation of the melt rows (melt ravels in column order). -/
def meltAll (cols : List String) (qs : List RowPair) : List Nat → List Triple
  | [] => []
  | i :: is => meltBatch cols qs i ++ meltAll cols qs is

/-- The (uid, column, value) table obtained from
listing_df[same_uid].compare(old_df, align_axis=0).melt(...).query(...):
one row per cell of the kept rectangle, carrying the self value where the
cell differs and NaN where it does not. -/
def meltTriples (cols : List String) (ps : List RowPair) : List Triple :=
  meltAll cols (diffPairs cols.length ps) (diffColIdxs cols.length ps)

/-- The annotation marker appended to changed values. -/
def annotSuffix : String := " (更新)"

/-- updated_df["value"] += " (更新)": pandas object arithmetic masks NaN,
so an absent value stays absent and a string gets the suffix appended. -/
def annotate (ts : List Triple) : List Triple :=
  ts.map (fun t => (t.1, t.2.1, t.2.2.map (fun s => s ++ annotSuffix)))

/-- The two local frames of compare_listing_df that are alive during the
write-back loop.  Boolean-mask selection copies in pandas, so updated_df
is a distinct value and the loop writes touch only it. -/
structure VarState where
  listing_df : Frame
  updated_df : Frame
deriving DecidableEq

/-- The write-back loop: for item in updated_array:
updated_df.loc[index, col] = value. -/
def runUpdates (s : VarState) (ts : List Triple) : VarState :=
  ts.foldl (fun s t => { s with updated_df := s.updated_df.setCell t.1 t.2.1 t.2.2 }) s

/-- The shared-uid rows of the new snapshot: listing_df[same_uid]. -/
def sharedRows (listing old : Frame) : List (String × List Value) :=
  listing.rows.filter (fun r => old.hasUid r.1)

/-- The candidate new rows: listing_df[~same_uid], the records of the new
snapshot whose uid is absent from the old snapshot, in row order. -/
def newRecords (listing old : Frame) : List (String × List Value) :=
  listing.rows.filter (fun r => !(old.hasUid r.1))

/-- Build the final frames of the updated branch (lines 155-174 of
src/app.py), assuming the identical-label check of compare has passed:
melt the compare rectangle into triples, append the suffix, restrict the
new snapshot to the uids occurring in the triple table, then run the
write-back loop. -/
def buildUpdatedRun (listing old : Frame) : VarState :=
  let ts := annotate (meltTriples listing.cols ((sharedRows listing old).zip old.rows))
  let tUids := ts.map Prod.fst
  let base : Frame := ⟨listing.cols, listing.rows.filter (fun r => tUids.contains r.1)⟩
  runUpdates ⟨listing, base⟩ ts

/-- The diff classification returned by compare_listing_df. -/
structure DiffResult where
  newDf : Option Frame
  updatedDf : Option Frame
deriving DecidableEq

/-- The error raised by pandas when comparing frames whose index or
columns are not identical sequences. -/
def labelError : String :=
  "ValueError: can only compare identically-labeled DataFrame objects"

/-- compare_listing_df (src/app.py lines 138-176), also exposing the final
values of the local frames.  The old snapshot is taken as the frame the
csv read produces.  Steps: the DataFrame.equals short-circuit; the
same_uid partition with the DataFrame.empty collapses to None; the
compare chain, which raises unless the shared rows carry exactly the old
index in the same order and both frames carry the same columns. -/
def compareRun (listing old : Frame) :
    Except String (DiffResult × Frame) :=
  if listing = old then
    .ok (⟨none, none⟩, listing)
  else
    let newDf : Option Frame :=
      if (Frame.mk listing.cols (newRecords listing old)).isEmptyDf then none
      else some ⟨listing.cols, newRecords listing old⟩
    let shared := sharedRows listing old
    if (Frame.mk listing.cols shared).isEmptyDf then
      .ok (⟨newDf, none⟩, listing)
    else if listing.cols = old.cols ∧ shared.map Prod.fst = old.uids then
      let s := buildUpdatedRun listing old
      .ok (⟨newDf, some s.updated_df⟩, s.listing_df)
    else
      .error labelError

/-- The observable result of compare_listing_df. -/
def compare_listing_df (listing old : Frame) : Except String DiffResult :=
  (compareRun listing old).map Prod.fst

/-- One rendered record block of create_report: one line per non-absent
column value in column order, then the blank separator line. -/
def recordBlock (cols : List String) (vals : List Value) : String :=
  ((cols.zip vals).foldl (fun acc p =>
    match p.2 with
    | none => acc
    | some v => acc ++ p.1 ++ ": " ++ v ++ "\n") "") ++ "\n"

/-- One section of create_report: skipped when the frame is None,
otherwise the header line, a blank line and the record blocks. -/
def sectionBlock (title : String) (df : Option Frame) : String :=
  match df with
  | none => ""
  | some f => (title ++ "\n" ++ "\n") ++
      f.rows.foldl (fun acc r => acc ++ recordBlock f.cols r.2) ""

/-- create_report (src/app.py lines 179-199): the new-applications section
followed by the recent-updates section. -/
def create_report (newDf updatedDf : Option Frame) : String :=
  sectionBlock "新申請" newDf ++ sectionBlock "最近更新" updatedDf

/-- One market iteration of main (src/app.py lines 39-56): returns the
persistence decision together with the notification payload, or the
propagated exception.  With no prior snapshot the new one is saved and
nothing is reported; otherwise the snapshot is saved and a report is sent
exactly when the diff returns a non-None new or updated frame. -/
def marketCycle (market : String) (listing : Frame) (old : Option Frame) :
    Except String (Bool × Option String) :=
  match old with
  | none => .ok (true, none)
  | some o =>
    match compare_listing_df listing o with
    | .error e => .error e
    | .ok d =>
      if d.newDf.isSome || d.updatedDf.isSome then
        .ok (true, some (market.toUpper ++ "\n" ++ create_report d.newDf d.updatedDf))
      else
        .ok (false, none)

/-- One market job of the main loop: the market name, the outcome of the
fetch-and-parse step, and the prior snapshot (if any). -/
abbrev Job := String × Except String Frame × Option Frame

/-- Processing of one job: the fetch outcome is consumed, then the cycle
body runs.  Any error propagates. -/
def processJob (j : Job) : Except String (Bool × Option String) := do
  let listing ← j.2.1
  marketCycle j.1 listing j.2.2

/-- The market loop of main (src/app.py lines 29-56): the markets are
processed in sequence with no exception handling, so the first error
aborts the whole loop. -/
def mainLoop : List Job → Except String (List (String × Bool × Option String))
  | [] => .ok []
  | j :: rest => do
    let r ← processJob j
    let rs ← mainLoop rest
    pure ((j.1, r.1, r.2) :: rs)

/-! ### Specification-level definitions

The following definitions follow the wording of the specification and are
used to state refinement claims against the code-level functions above. -/

/-- Snapshot identity in the words of spec section 3: two snapshots are
structurally equal iff they contain the same set of uids and, for every
uid, identical values across every column (absent counts as a value of
its own, which the `Option String` equality already provides). -/
def structEq (a b : Frame) : Bool :=
  a.uids.all (fun u => b.hasUid u) && b.uids.all (fun u => a.hasUid u) &&
  a.uids.all (fun u => a.cols.all (fun c => a.cell u c == b.cell u c)) &&
  b.uids.all (fun u => b.cols.all (fun c => a.cell u c == b.cell u c))

/-- The present (non-absent) columns of a record, paired with their
values, in the record's column order. -/
def presentPairs (cols : List String) (vals : List Value) : List (String × String) :=
  (cols.zip vals).filterMap (fun p => p.2.map (fun v => (p.1, v)))

/-- Concatenation of a list of text fragments. -/
def concatAll : List String → String
  | [] => ""
  | s :: ss => s ++ concatAll ss

/-- A record block in the words of the spec: one line per present column,
columnName: value, in the record's column order, absent values skipped
entirely, and a blank line after the record. -/
def specRecordBlock (cols : List String) (vals : List Value) : String :=
  concatAll ((presentPairs cols vals).map (fun q => q.1 ++ ": " ++ q.2 ++ "\n")) ++ "\n"

/-- A report section in the words of the spec: emitted only if its record
set is non-empty, beginning with the section header line. -/
def specSection (title : String) (df : Option Frame) : String :=
  match df with
  | none => ""
  | some f =>
    if f.rows.isEmpty then ""
    else title ++ "\n\n" ++ concatAll (f.rows.map (fun r => specRecordBlock f.cols r.2))

/-- The report in the words of the spec: the new-applications section
followed by the recent-updates section, in that fixed order. -/
def renderSpec (newDf updatedDf : Option Frame) : String :=
  specSection "新申請" newDf ++ specSection "最近更新" updatedDf

/-- The DiffResult collapse invariant of the spec: an empty record set
collapses to None, so a present frame holds at least one record. -/
def collapsed : Option Frame → Bool
  | none => true
  | some f => !f.rows.isEmpty

/-! ### Helper lemmas -/

theorem uids_mem_of_mem {f : Frame} {r : String × List Value}
    (h : r ∈ f.rows) : r.1 ∈ f.uids :=
  List.mem_map_of_mem Prod.fst h

theorem hasUid_of_mem {f : Frame} {r : String × List Value}
    (h : r ∈ f.rows) : f.hasUid r.1 = true := by
  simp only [Frame.hasUid, List.contains_eq_any_beq, List.any_eq_true]
  exact ⟨r.1, uids_mem_of_mem h, by simp⟩

theorem hasUid_iff {f : Frame} {u : String} :
    f.hasUid u = true ↔ u ∈ f.uids := by
  simp [Frame.hasUid, List.contains_eq_any_beq, List.any_eq_true, eq_comm]

/-- Filtering a frame against its own index keeps nothing out. -/
theorem newRecords_self (f : Frame) : newRecords f f = [] := by
  rw [newRecords, List.filter_eq_nil_iff]
  intro r hr
  simp [hasUid_of_mem hr]

theorem runUpdates_listing (s : VarState) (ts : List Triple) :
    (runUpdates s ts).listing_df = s.listing_df := by
  induction ts generalizing s with
  | nil => rfl
  | cons t ts ih => simp only [runUpdates, List.foldl_cons] at ih ⊢; exact ih _

theorem setCell_cols (f : Frame) (u c : String) (v : Value) :
    (f.setCell u c v).cols = f.cols := rfl

theorem setCell_uids (f : Frame) (u c : String) (v : Value) :
    (f.setCell u c v).uids = f.uids := by
  simp only [Frame.setCell, Frame.uids, List.map_map]
  apply List.map_congr_left
  intro r _
  by_cases h : r.1 = u <;> simp [h]

theorem runUpdates_updated_uids (s : VarState) (ts : List Triple) :
    (runUpdates s ts).updated_df.uids = s.updated_df.uids := by
  induction ts generalizing s with
  | nil => rfl
  | cons t ts ih =>
    simp only [runUpdates, List.foldl_cons] at ih ⊢
    rw [ih]
    exact setCell_uids _ _ _ _

theorem runUpdates_updated_cols (s : VarState) (ts : List Triple) :
    (runUpdates s ts).updated_df.cols = s.updated_df.cols := by
  induction ts generalizing s with
  | nil => rfl
  | cons t ts ih =>
    simp only [runUpdates, List.foldl_cons] at ih ⊢
    exact ih _

theorem buildUpdatedRun_listing (listing old : Frame) :
    (buildUpdatedRun listing old).listing_df = listing := by
  simp only [buildUpdatedRun]
  exact runUpdates_listing _ _

/-! ### Concrete snapshots used as witnesses and counterexamples -/

/-- A one-record snapshot. -/
def oldOne : Frame := ⟨["a"], [("u1", [some "x"])]⟩

/-- The same record plus one new record. -/
def newTwo : Frame := ⟨["a"], [("u1", [some "x"]), ("u2", [some "y"])]⟩

/-- A snapshot holding only the second record. -/
def soloU2 : Frame := ⟨["a"], [("u2", [some "y"])]⟩

/-- A snapshot with no rows. -/
def emptyNew : Frame := ⟨["a"], []⟩

/-- newTwo with its two rows in the opposite order. -/
def swapTwo : Frame := ⟨["a"], [("u2", [some "y"]), ("u1", [some "x"])]⟩

/-- New snapshot of the cross pattern: u1 changed in column a, u2 changed
in column b, the other two cells unchanged. -/
def crossNew : Frame :=
  ⟨["a", "b"], [("u1", [some "A2", some "B"]), ("u2", [some "C", some "D2"])]⟩

/-- Old snapshot of the cross pattern. -/
def crossOld : Frame :=
  ⟨["a", "b"], [("u1", [some "A1", some "B"]), ("u2", [some "C", some "D1"])]⟩

/-! ### Claim C3 -/

/-- C3 counterexample: two snapshots that are structurally equal in the
sense of spec section 3 (same uid set, identical values for every uid and
column) but listed in a different row order do not yield an empty
DiffResult: the DataFrame.equals short-circuit is order-sensitive, the
per-cell comparison then raises the identically-labeled error, and the
diff fails instead of returning an empty DiffResult. -/
theorem c3_counterexample :
    structEq newTwo swapTwo = true ∧
    compare_listing_df newTwo swapTwo = .error labelError ∧
    compare_listing_df newTwo swapTwo ≠ .ok ⟨none, none⟩ := by
  refine ⟨by decide, rfl, ?_⟩
  intro h
  rw [show compare_listing_df newTwo swapTwo = .error labelError from rfl] at h
  exact Except.noConfusion h

/-- C3 (amended): diffing a snapshot against an identical snapshot —
equal as an ordered table, the same rows in the same order with the same
columns, which is what pandas DataFrame.equals tests — returns an empty
DiffResult (no new, no updated); mere structural equality up to row order
does not suffice. -/
theorem c3_diff_self_empty (S : Frame) :
    compare_listing_df S S = .ok ⟨none, none⟩ := by
  simp [compare_listing_df, compareRun, Except.map]

/-! ### Claim C9 -/

/-- C9: the diff never mutates its input new snapshot: whenever
compare_listing_df succeeds, the final value of the listing_df variable
after the whole run — including the write-back loop, which (pandas
boolean-mask selection returning a copy) writes only into updated_df — is
the unchanged input snapshot. -/
theorem c9_diff_preserves_new_snapshot (listing old : Frame) (d : DiffResult)
    (fin : Frame) (h : compareRun listing old = .ok (d, fin)) : fin = listing := by
  simp only [compareRun] at h
  split at h
  · simp only [Except.ok.injEq, Prod.mk.injEq] at h
    exact h.2.symm
  · split at h
    · simp only [Except.ok.injEq, Prod.mk.injEq] at h
      exact h.2.symm
    · split at h
      · simp only [Except.ok.injEq, Prod.mk.injEq] at h
        rw [← h.2, buildUpdatedRun_listing]
      · exact Except.noConfusion h

/-- C9 witness: a concrete successful diff whose final listing_df value
is the input snapshot. -/
theorem c9_witness :
    compareRun newTwo oldOne =
      .ok (⟨some ⟨["a"], [("u2", [some "y"])]⟩, some ⟨["a"], []⟩⟩, newTwo) ∧
    newTwo = newTwo :=
  ⟨rfl, c9_diff_preserves_new_snapshot newTwo oldOne
    ⟨some ⟨["a"], [("u2", [some "y"])]⟩, some ⟨["a"], []⟩⟩ newTwo rfl⟩

/-! ### Claim C8 -/

/-- A first-market job whose fetch step fails. -/
def jobFail : Job := ("twse", .error "TransportError: fetch failed", none)

/-- A second-market job that succeeds in isolation. -/
def jobOk : Job := ("tpex", .ok newTwo, none)

/-- C8 counterexample: an error raised while processing the first market
aborts the whole run — the loop body has no exception handling — so the
second market, whose cycle completes when run alone, is never processed:
the run yields the propagated error and produces no per-market results. -/
theorem c8_counterexample :
    mainLoop [jobFail, jobOk] = .error "TransportError: fetch failed" ∧
    mainLoop [jobOk] = .ok [("tpex", true, none)] :=
  ⟨rfl, rfl⟩

/-- C8 (amended): an error raised while processing the first market
(fetch, parse, diff, store or notify failure) propagates out of the
market loop: the whole run aborts with that error and the second market's
cycle never runs. -/
theorem c8_first_market_error_aborts_run (j : Job) (rest : List Job) (e : String)
    (h : processJob j = .error e) : mainLoop (j :: rest) = .error e := by
  simp only [mainLoop, h, bind, Except.bind]

/-- C8 witness: the failing first-market job concretely aborts the run. -/
theorem c8_witness :
    processJob jobFail = .error "TransportError: fetch failed" ∧
    mainLoop [jobFail, jobOk] = .error "TransportError: fetch failed" :=
  ⟨rfl, c8_first_market_error_aborts_run jobFail [jobOk] "TransportError: fetch failed" rfl⟩

/-! ### Claim C6 -/

/-- C6 counterexample: a newly fetched snapshot that differs from the
most recent prior snapshot (here: it is empty while the prior one has a
record) is not persisted: both partitions collapse to None, so the cycle
decides not to save even though the snapshots differ, refuting the
persisted-iff-different claim. -/
theorem c6_counterexample :
    emptyNew ≠ oldOne ∧
    marketCycle "twse" emptyNew (some oldOne) = .ok (false, none) := by
  exact ⟨by decide, rfl⟩

/-- C6 (amended): the newly fetched snapshot is persisted iff no prior
snapshot exists or the diff succeeds with a non-None new or updated set.
Structural equality still implies no persistence, but a differing
snapshot whose diff collapses both sets to None (for example an empty new
snapshot) is not persisted, and a failing diff persists nothing because
the error propagates. -/
theorem c6_persistence_decision (market : String) (listing : Frame)
    (old : Option Frame) (res : Bool × Option String)
    (h : marketCycle market listing old = .ok res) :
    res.1 = true ↔
      old = none ∨ ∃ o d, old = some o ∧ compare_listing_df listing o = .ok d ∧
        (d.newDf.isSome || d.updatedDf.isSome) = true := by
  cases old with
  | none =>
    simp only [marketCycle, Except.ok.injEq] at h
    rw [← h]
    simp
  | some o =>
    cases hc : compare_listing_df listing o with
    | error e =>
      simp only [marketCycle, hc] at h
      exact Except.noConfusion h
    | ok d =>
      simp only [marketCycle, hc] at h
      by_cases hcond : (d.newDf.isSome || d.updatedDf.isSome) = true
      · rw [if_pos hcond] at h
        simp only [Except.ok.injEq] at h
        rw [← h]
        simp only [true_iff]
        exact Or.inr ⟨o, d, rfl, hc, hcond⟩
      · rw [if_neg hcond] at h
        simp only [Except.ok.injEq] at h
        rw [← h]
        simp only [Bool.false_eq_true, false_iff]
        intro hcontra
        rcases hcontra with hnone | ⟨o2, d2, ho2, hc2, hcond2⟩
        · exact Option.noConfusion hnone
        · rw [Option.some.injEq] at ho2
          rw [← ho2, hc] at hc2
          rw [Except.ok.injEq] at hc2
          rw [← hc2] at hcond2
          exact hcond hcond2

/-- C6 witness: with a prior snapshot present and a diff that reports a
new record, the cycle decides to persist. -/
theorem c6_witness :
    marketCycle "twse" newTwo (some oldOne) =
      .ok (true, some ("twse".toUpper ++ "\n" ++
        create_report (some ⟨["a"], [("u2", [some "y"])]⟩) (some ⟨["a"], []⟩))) ∧
    (true = true ↔
      (some oldOne : Option Frame) = none ∨ ∃ o d, (some oldOne : Option Frame) = some o ∧
        compare_listing_df newTwo o = .ok d ∧ (d.newDf.isSome || d.updatedDf.isSome) = true) :=
  ⟨by rfl, c6_persistence_decision "twse" newTwo (some oldOne)
    (true, some ("twse".toUpper ++ "\n" ++
      create_report (some ⟨["a"], [("u2", [some "y"])]⟩) (some ⟨["a"], []⟩))) (by rfl)⟩

/-! ### Inversion of a successful diff -/

theorem isEmptyDf_mk_of_cols_ne_nil (cols : List String)
    (rows : List (String × List Value)) (h : cols ≠ []) :
    (Frame.mk cols rows).isEmptyDf = rows.isEmpty := by
  cases cols with
  | nil => exact absurd rfl h
  | cons c cs => simp [Frame.isEmptyDf]

/-- Case analysis of a successful compare_listing_df run. -/
theorem compareRun_ok_inv {listing old : Frame} {d : DiffResult} {fin : Frame}
    (h : compareRun listing old = .ok (d, fin)) :
    (listing = old ∧ d = ⟨none, none⟩) ∨
    (listing ≠ old ∧
      d.newDf = (if (Frame.mk listing.cols (newRecords listing old)).isEmptyDf then none
                 else some ⟨listing.cols, newRecords listing old⟩) ∧
      (((Frame.mk listing.cols (sharedRows listing old)).isEmptyDf = true ∧
          d.updatedDf = none) ∨
       ((Frame.mk listing.cols (sharedRows listing old)).isEmptyDf = false ∧
          listing.cols = old.cols ∧
          (sharedRows listing old).map Prod.fst = old.uids ∧
          d.updatedDf = some (buildUpdatedRun listing old).updated_df))) := by
  simp only [compareRun] at h
  split at h
  · rename_i heq
    simp only [Except.ok.injEq, Prod.mk.injEq] at h
    exact Or.inl ⟨heq, h.1.symm⟩
  · rename_i hne
    split at h
    · rename_i hempty
      simp only [Except.ok.injEq, Prod.mk.injEq] at h
      refine Or.inr ⟨hne, ?_, Or.inl ⟨hempty, ?_⟩⟩
      · rw [← h.1]
      · rw [← h.1]
    · rename_i hempty
      split at h
      · rename_i hlab
        simp only [Except.ok.injEq, Prod.mk.injEq] at h
        refine Or.inr ⟨hne, ?_, Or.inr ⟨?_, hlab.1, hlab.2, ?_⟩⟩
        · rw [← h.1]
        · exact Bool.eq_false_iff.mpr hempty
        · rw [← h.1]
      · exact Except.noConfusion h

/-- Turn a successful compare_listing_df into a successful compareRun. -/
theorem compare_ok_run {listing old : Frame} {d : DiffResult}
    (h : compare_listing_df listing old = .ok d) :
    ∃ fin, compareRun listing old = .ok (d, fin) := by
  rw [compare_listing_df] at h
  cases hr : compareRun listing old with
  | error e => rw [hr] at h; exact Except.noConfusion h
  | ok p =>
    rw [hr] at h
    simp only [Except.map, Except.ok.injEq] at h
    exact ⟨p.2, by rw [← h]⟩

/-! ### Claim C2 -/

/-- C2: whenever the diff succeeds, its new set is exactly the records of
the new snapshot whose uid does not occur in the old snapshot, in the new
snapshot's row order, and it collapses to None exactly when that record
set is empty.  The snapshot schema is assumed non-empty (every market
schema carries data columns besides the uid). -/
theorem c2_new_set_characterization (listing old : Frame) (d : DiffResult)
    (h : compare_listing_df listing old = .ok d) (hcols : listing.cols ≠ []) :
    d.newDf = if (newRecords listing old).isEmpty then none
              else some ⟨listing.cols, newRecords listing old⟩ := by
  obtain ⟨fin, hr⟩ := compare_ok_run h
  rcases compareRun_ok_inv hr with ⟨heq, hd⟩ | ⟨-, hnew, -⟩
  · subst heq
    rw [hd, newRecords_self]
    simp
  · rw [hnew, isEmptyDf_mk_of_cols_ne_nil _ _ hcols]

/-- C2 witness: a concrete successful diff with one genuinely new record
and a non-degenerate schema. -/
theorem c2_witness :
    compare_listing_df newTwo oldOne =
      .ok ⟨some ⟨["a"], [("u2", [some "y"])]⟩, some ⟨["a"], []⟩⟩ ∧
    newTwo.cols ≠ [] ∧
    (some ⟨["a"], [("u2", [some "y"])]⟩ : Option Frame) =
      if (newRecords newTwo oldOne).isEmpty then none
      else some ⟨newTwo.cols, newRecords newTwo oldOne⟩ :=
  ⟨by rfl, by decide,
   c2_new_set_characterization newTwo oldOne
     ⟨some ⟨["a"], [("u2", [some "y"])]⟩, some ⟨["a"], []⟩⟩ (by rfl) (by decide)⟩

/-! ### Claim C4 -/

theorem hasUid_filter_imp {listing : Frame} {p : String × List Value → Bool}
    {u : String} (h : (Frame.mk listing.cols (listing.rows.filter p)).hasUid u = true) :
    listing.hasUid u = true := by
  rw [hasUid_iff] at h ⊢
  simp only [Frame.uids, List.mem_map] at h ⊢
  obtain ⟨r, hr, hru⟩ := h
  exact ⟨r, (List.mem_filter.mp hr).1, hru⟩

theorem buildUpdated_hasUid_imp {listing old : Frame} {u : String}
    (h : (buildUpdatedRun listing old).updated_df.hasUid u = true) :
    listing.hasUid u = true := by
  simp only [buildUpdatedRun] at h
  rw [Frame.hasUid, runUpdates_updated_uids] at h
  exact @hasUid_filter_imp listing _ _ h

/-- C4 counterexample: with the single shared uid u1 and the uid u2
present only in the old snapshot, the diff does not succeed: the per-cell
comparison of the shared rows against the full old snapshot raises the
identically-labeled error, refuting the part of the claim stating that
the diff still succeeds under deletions. -/
theorem c4_counterexample :
    newTwo.hasUid "u2" = true ∧ oldOne.hasUid "u2" = false ∧
    compare_listing_df oldOne newTwo = .error labelError := by
  exact ⟨by decide, by decide, by rfl⟩

/-- C4 (amended): a uid present in the old snapshot but absent from the
new snapshot never appears in the new or updated set of a successful
diff; the diff however does not always succeed under deletions — with at
least one shared uid it raises the identically-labeled error, so
deletions are silently ignored only when the diff succeeds. -/
theorem c4_deleted_uid_invisible_on_success (listing old : Frame) (d : DiffResult)
    (u : String) (h : compare_listing_df listing old = .ok d)
    (_hold : old.hasUid u = true) (hnew : listing.hasUid u = false) :
    (∀ f, d.newDf = some f → f.hasUid u = false) ∧
    (∀ f, d.updatedDf = some f → f.hasUid u = false) := by
  obtain ⟨fin, hr⟩ := compare_ok_run h
  rcases compareRun_ok_inv hr with ⟨heq, hd⟩ | ⟨-, hnewdf, hupd⟩
  · rw [hd]
    exact ⟨fun f hf => Option.noConfusion hf, fun f hf => Option.noConfusion hf⟩
  · constructor
    · intro f hf
      rw [hnewdf] at hf
      split at hf
      · exact Option.noConfusion hf
      · rw [Option.some.injEq] at hf
        subst hf
        cases hfu : (Frame.mk listing.cols (newRecords listing old)).hasUid u
        · rfl
        · rw [newRecords] at hfu
          rw [hasUid_filter_imp hfu] at hnew
          exact Bool.noConfusion hnew
    · intro f hf
      rcases hupd with ⟨-, hnone⟩ | ⟨-, -, -, hsome⟩
      · rw [hnone] at hf
        exact Option.noConfusion hf
      · rw [hsome, Option.some.injEq] at hf
        subst hf
        cases hfu : (buildUpdatedRun listing old).updated_df.hasUid u
        · rfl
        · rw [buildUpdated_hasUid_imp hfu] at hnew
          exact Bool.noConfusion hnew

/-- C4 witness: with disjoint uid sets the diff succeeds, the deleted uid
u1 appears in neither output set. -/
theorem c4_witness :
    compare_listing_df soloU2 oldOne = .ok ⟨some soloU2, none⟩ ∧
    oldOne.hasUid "u1" = true ∧ soloU2.hasUid "u1" = false ∧
    ((∀ f, (some soloU2 : Option Frame) = some f → f.hasUid "u1" = false) ∧
     (∀ f, (none : Option Frame) = some f → f.hasUid "u1" = false)) :=
  ⟨by rfl, by decide, by decide,
   c4_deleted_uid_invisible_on_success soloU2 oldOne ⟨some soloU2, none⟩ "u1"
     (by rfl) (by decide) (by decide)⟩

/-! ### Claim C5 -/

theorem zip_self {α : Type} (l : List α) : l.zip l = l.map (fun x => (x, x)) := by
  induction l with
  | nil => rfl
  | cons x xs ih => simp [List.zip_cons_cons, ih]

theorem diffColIdxs_zip_self (n : Nat) (l : List (String × List Value)) :
    diffColIdxs n (l.zip l) = [] := by
  rw [diffColIdxs, List.filter_eq_nil_iff]
  intro i _
  simp only [Bool.not_eq_true, List.any_eq_false]
  intro p hp
  rw [zip_self, List.mem_map] at hp
  obtain ⟨x, -, hx⟩ := hp
  rw [← hx]
  simp [pairDiffAt, cellDiff]

/-- C5 counterexample: the only difference between the snapshots is one
newly added record, so no shared pair differs, yet the diff returns
updated as a present empty record set rather than None: the code never
collapses the post-compare updated frame back to None. -/
theorem c5_counterexample :
    compare_listing_df newTwo oldOne =
      .ok ⟨some ⟨["a"], [("u2", [some "y"])]⟩, some ⟨["a"], []⟩⟩ ∧
    (some (Frame.mk ["a"] []) : Option Frame) ≠ none := by
  refine ⟨by rfl, ?_⟩
  intro hcontra
  exact Option.noConfusion hcontra

/- The C5 theorem and witness are stated at the end of the file, after
the alignment lemmas they rely on. -/

/-! ### Claim C1 -/

/-- C1 evaluation at the failing input: in the cross pattern u1 differs
only in column a and u2 differs only in column b, yet the updated output
does not keep the plain new value of the non-differing cells (u1, b) and
(u2, a) — it erases them to absent.  DataFrame.compare keeps a rectangle
of differing rows times differing columns with NaN at equal cells, and
the melt/write-back loop writes those NaN values over the new snapshot's
values, contradicting the claim that every non-differing column equals
the new snapshot's plain value. -/
theorem c1_nondiffering_cell_erased :
    compare_listing_df crossNew crossOld =
      .ok ⟨none, some ⟨["a", "b"],
        [("u1", [some ("A2" ++ annotSuffix), none]),
         ("u2", [none, some ("D2" ++ annotSuffix)])]⟩⟩ ∧
    crossNew.cell "u1" "b" = some "B" ∧
    crossOld.cell "u1" "b" = some "B" := by
  exact ⟨by rfl, by rfl, by rfl⟩

/-! ### Claim C7 -/

/-- The line contributed by one (column, value) pair: nothing for an
absent value. -/
def lineOf (p : String × Value) : String :=
  ((p.2.map (fun v => p.1 ++ ": " ++ v ++ "\n")).getD "")

theorem foldl_append_concatAll {α : Type} (g : α → String) (l : List α) (acc : String) :
    l.foldl (fun a x => a ++ g x) acc = acc ++ concatAll (l.map g) := by
  induction l generalizing acc with
  | nil => rw [List.foldl_nil, List.map_nil, concatAll, String.append_empty]
  | cons x xs ih =>
    rw [List.foldl_cons, ih, List.map_cons, concatAll, String.append_assoc]

theorem concatAll_lines (l : List (String × Value)) :
    concatAll (l.map lineOf) =
      concatAll ((l.filterMap (fun p => p.2.map (fun v => (p.1, v)))).map
        (fun q => q.1 ++ ": " ++ q.2 ++ "\n")) := by
  induction l with
  | nil => rfl
  | cons p ps ih =>
    cases hp : p.2 with
    | none =>
      rw [List.map_cons, List.filterMap_cons, hp]
      simp only [Option.map_none']
      rw [concatAll, lineOf, hp]
      simp only [Option.map_none', Option.getD_none]
      rw [String.empty_append, ih]
    | some v =>
      rw [List.map_cons, List.filterMap_cons, hp]
      simp only [Option.map_some']
      rw [List.map_cons, concatAll, concatAll, lineOf, hp]
      simp only [Option.map_some', Option.getD_some]
      rw [ih]

theorem recordBlock_eq (cols : List String) (vals : List Value) :
    recordBlock cols vals = specRecordBlock cols vals := by
  rw [recordBlock, specRecordBlock]
  have hext : (cols.zip vals).foldl (fun acc p =>
      match p.2 with
      | none => acc
      | some v => acc ++ p.1 ++ ": " ++ v ++ "\n") "" =
      (cols.zip vals).foldl (fun a x => a ++ lineOf x) "" := by
    apply List.foldl_ext
    intro a b _
    cases hb : b.2 with
    | none => rw [lineOf, hb]; simp [String.append_empty]
    | some v => rw [lineOf, hb]; simp [String.append_assoc]
  rw [hext, foldl_append_concatAll, String.empty_append, presentPairs, concatAll_lines]

theorem sectionBlock_eq (title : String) (df : Option Frame)
    (h : collapsed df = true) : sectionBlock title df = specSection title df := by
  cases df with
  | none => rfl
  | some f =>
    rw [sectionBlock, specSection]
    have hrows : f.rows.isEmpty = false := by
      rw [collapsed] at h
      cases hr : f.rows.isEmpty
      · rfl
      · rw [hr] at h; exact Bool.noConfusion h
    rw [hrows]
    simp only [Bool.false_eq_true, if_false]
    rw [foldl_append_concatAll (fun r => recordBlock f.cols r.2) f.rows ""]
    rw [String.empty_append]
    have hmap : f.rows.map (fun r => recordBlock f.cols r.2) =
        f.rows.map (fun r => specRecordBlock f.cols r.2) :=
      List.map_congr_left (fun r _ => recordBlock_eq f.cols r.2)
    rw [hmap, String.append_assoc, String.append_assoc]
    have hnl : ("\n" ++ ("\n" ++ concatAll (f.rows.map (fun r => specRecordBlock f.cols r.2)))
        : String) = "\n\n" ++ concatAll (f.rows.map (fun r => specRecordBlock f.cols r.2)) := by
      rw [← String.append_assoc]
      rfl
    rw [hnl, ← String.append_assoc]

/-- C7: for every DiffResult satisfying the spec collapse invariant (an
empty record set collapses to None), the rendered report equals the
spec-level renderer: the new-applications section precedes the
recent-updates section, a section is emitted only when its record set is
non-empty, each record is rendered as one columnName: value line per
present column in the record's column order with a blank line after each
record, and no line is emitted for an absent-valued column. -/
theorem c7_report_renders_spec (newDf updatedDf : Option Frame)
    (hn : collapsed newDf = true) (hu : collapsed updatedDf = true) :
    create_report newDf updatedDf = renderSpec newDf updatedDf := by
  rw [create_report, renderSpec, sectionBlock_eq _ _ hn, sectionBlock_eq _ _ hu]

/-- C7 witness: the refinement instantiated at a concrete DiffResult with
one new record carrying a present and an absent value. -/
theorem c7_witness :
    collapsed (some ⟨["a", "b"], [("u1", [some "x", none])]⟩) = true ∧
    collapsed (none : Option Frame) = true ∧
    create_report (some ⟨["a", "b"], [("u1", [some "x", none])]⟩) none =
      renderSpec (some ⟨["a", "b"], [("u1", [some "x", none])]⟩) none :=
  ⟨by decide, by rfl,
   c7_report_renders_spec (some ⟨["a", "b"], [("u1", [some "x", none])]⟩) none
     (by decide) (by rfl)⟩

/-! ### Positional lemmas for columns and rows -/

theorem colPos_lt {cols : List String} {c : String} {i : Nat}
    (h : colPos cols c = some i) : i < cols.length := by
  induction cols generalizing i with
  | nil => exact Option.noConfusion h
  | cons c0 cs ih =>
    rw [colPos] at h
    split at h
    · rw [Option.some.injEq] at h
      rw [← h]
      exact Nat.succ_pos _
    · cases hj : colPos cs c with
      | none => rw [hj] at h; exact Option.noConfusion h
      | some j =>
        rw [hj, Option.map_some', Option.some.injEq] at h
        rw [← h, List.length_cons]
        exact Nat.succ_lt_succ (ih hj)

theorem colPos_getD {cols : List String} {c : String} {i : Nat}
    (h : colPos cols c = some i) : cols.getD i "" = c := by
  induction cols generalizing i with
  | nil => exact Option.noConfusion h
  | cons c0 cs ih =>
    rw [colPos] at h
    split at h
    · rename_i heq
      rw [Option.some.injEq] at h
      rw [← h, List.getD]
      exact heq
    · cases hj : colPos cs c with
      | none => rw [hj] at h; exact Option.noConfusion h
      | some j =>
        rw [hj, Option.map_some', Option.some.injEq] at h
        rw [← h]
        exact ih hj

theorem colPos_inj {cols : List String} {c c' : String} {i j : Nat}
    (h1 : colPos cols c = some i) (h2 : colPos cols c' = some j)
    (hij : i = j) : c = c' := by
  rw [← colPos_getD h1, ← colPos_getD h2, hij]

theorem getD_inj {cols : List String} {i j : Nat} (hN : cols.Nodup)
    (hi : i < cols.length) (hj : j < cols.length)
    (h : cols.getD i "" = cols.getD j "") : i = j := by
  rw [List.getD_eq_getElem _ _ hi, List.getD_eq_getElem _ _ hj] at h
  exact (List.Nodup.getElem_inj_iff hN).mp h

theorem getD_set_self {α : Type} {l : List α} {i : Nat} {v d : α}
    (h : i < l.length) : (l.set i v).getD i d = v := by
  induction l generalizing i with
  | nil => exact absurd h (Nat.not_lt_zero _)
  | cons x xs ih =>
    cases i with
    | zero => rfl
    | succ n =>
      rw [List.set_cons_succ]
      exact ih (Nat.lt_of_succ_lt_succ h)

theorem getD_set_ne {α : Type} {l : List α} {i j : Nat} {v d : α}
    (h : i ≠ j) : (l.set j v).getD i d = l.getD i d := by
  induction l generalizing i j with
  | nil => rfl
  | cons x xs ih =>
    cases j with
    | zero =>
      cases i with
      | zero => exact absurd rfl h
      | succ n => rfl
    | succ m =>
      cases i with
      | zero => rfl
      | succ n =>
        rw [List.set_cons_succ]
        exact ih (fun hnm => h (by rw [hnm]))

theorem row?_some_mem {f : Frame} {u : String} {vs : List Value}
    (h : f.row? u = some vs) : (u, vs) ∈ f.rows := by
  rw [Frame.row?] at h
  cases hf : f.rows.find? (fun r => r.1 == u) with
  | none => rw [hf] at h; exact Option.noConfusion h
  | some r =>
    rw [hf, Option.map_some', Option.some.injEq] at h
    have hmem := List.mem_of_find?_eq_some hf
    have hpred := List.find?_some hf
    rw [beq_iff_eq] at hpred
    have : (u, vs) = r := by
      rw [← hpred, ← h]
    rw [this]
    exact hmem

theorem nodup_unique_assoc {rows : List (String × List Value)} {u : String}
    {a b : List Value} (hN : (rows.map Prod.fst).Nodup)
    (ha : (u, a) ∈ rows) (hb : (u, b) ∈ rows) : b = a := by
  induction rows with
  | nil => cases ha
  | cons r rs ih =>
    rw [List.map_cons, List.nodup_cons] at hN
    rcases List.mem_cons.mp ha with ha1 | ha2
    · rcases List.mem_cons.mp hb with hb1 | hb2
      · rw [← ha1, Prod.mk.injEq] at hb1
        exact hb1.2
      · exfalso
        apply hN.1
        rw [← ha1]
        exact List.mem_map.mpr ⟨(u, b), hb2, rfl⟩
    · rcases List.mem_cons.mp hb with hb1 | hb2
      · exfalso
        apply hN.1
        rw [← hb1]
        exact List.mem_map.mpr ⟨(u, a), ha2, rfl⟩
      · exact ih hN.2 ha2 hb2

theorem row?_eq_of_nodup_mem {f : Frame} {u : String} {vs : List Value}
    (hN : f.uids.Nodup) (hm : (u, vs) ∈ f.rows) : f.row? u = some vs := by
  rw [Frame.row?]
  cases hf : f.rows.find? (fun r => r.1 == u) with
  | none =>
    exfalso
    have hex : ∃ r ∈ f.rows, (r.1 == u) = true := ⟨(u, vs), hm, by simp⟩
    rw [← List.find?_isSome] at hex
    rw [hf] at hex
    exact Bool.noConfusion hex
  | some r =>
    rw [Option.map_some', Option.some.injEq]
    have hmem := List.mem_of_find?_eq_some hf
    have hpred := List.find?_some hf
    rw [beq_iff_eq] at hpred
    have hru : (u, r.2) ∈ f.rows := by
      rw [show ((u, r.2) : String × List Value) = r from by rw [← hpred]]
      exact hmem
    exact nodup_unique_assoc hN hm hru

/-! ### Write-loop lemmas -/

/-- The (uid, column) key of one write. -/
def keyOf (t : Triple) : String × String := (t.1, t.2.1)

/-- One write of the write-back loop as a frame transformer. -/
def stepWrite (f : Frame) (t : Triple) : Frame := f.setCell t.1 t.2.1 t.2.2

theorem runUpdates_updated_eq_foldl (s : VarState) (ts : List Triple) :
    (runUpdates s ts).updated_df = ts.foldl stepWrite s.updated_df := by
  induction ts generalizing s with
  | nil => rfl
  | cons t ts ih =>
    simp only [runUpdates, List.foldl_cons] at ih ⊢
    exact ih _

theorem foldl_stepWrite_cols (f : Frame) (ts : List Triple) :
    (ts.foldl stepWrite f).cols = f.cols := by
  induction ts generalizing f with
  | nil => rfl
  | cons t ts ih =>
    rw [List.foldl_cons, ih]
    rfl

theorem foldl_stepWrite_uids (f : Frame) (ts : List Triple) :
    (ts.foldl stepWrite f).uids = f.uids := by
  induction ts generalizing f with
  | nil => rfl
  | cons t ts ih =>
    rw [List.foldl_cons, ih, stepWrite, setCell_uids]

theorem setVals_length (cols : List String) (vs : List Value) (c : String) (v : Value) :
    (setVals cols vs c v).length = vs.length := by
  cases h : colPos cols c with
  | none => simp only [setVals, h]
  | some i =>
    simp only [setVals, h]
    exact List.length_set vs i v

theorem setCell_WF {f : Frame} {u c : String} {v : Value} (h : f.WF) :
    (f.setCell u c v).WF := by
  intro r hr
  rw [Frame.setCell] at hr
  simp only [List.mem_map] at hr
  obtain ⟨r0, hr0, hmap⟩ := hr
  rw [setCell_cols, ← hmap]
  cases hbe : (r0.1 == u) with
  | false =>
    simp only [hbe, Bool.false_eq_true, if_false]
    exact h r0 hr0
  | true =>
    simp only [hbe, if_true]
    rw [setVals_length]
    exact h r0 hr0

theorem foldl_stepWrite_WF {f : Frame} {ts : List Triple} (h : f.WF) :
    (ts.foldl stepWrite f).WF := by
  induction ts generalizing f with
  | nil => exact h
  | cons t ts ih =>
    rw [List.foldl_cons]
    exact ih (setCell_WF h)

theorem row?_setCell (f : Frame) (u c : String) (v : Value) (u' : String) :
    (f.setCell u c v).row? u' =
      if u' = u then (f.row? u').map (fun vs => setVals f.cols vs c v)
      else f.row? u' := by
  rw [Frame.setCell, Frame.row?, Frame.row?]
  show ((f.rows.map (fun r => if r.1 == u then (r.1, setVals f.cols r.2 c v) else r)).find?
      (fun r => r.1 == u')).map Prod.snd = _
  induction f.rows with
  | nil => by_cases h : u' = u <;> simp [h]
  | cons r rs ih =>
    rw [List.map_cons]
    cases hbe : (r.1 == u') with
    | false =>
      have hg : ((if r.1 == u then (r.1, setVals f.cols r.2 c v) else r).1 == u') = false := by
        cases hru : (r.1 == u) with
        | false => simp only [hru, Bool.false_eq_true, if_false]; exact hbe
        | true => simp only [hru, if_true]; exact hbe
      simp only [List.find?_cons, hg, hbe]
      exact ih
    | true =>
      have hg : ((if r.1 == u then (r.1, setVals f.cols r.2 c v) else r).1 == u') = true := by
        cases hru : (r.1 == u) with
        | false => simp only [hru, Bool.false_eq_true, if_false]; exact hbe
        | true => simp only [hru, if_true]; exact hbe
      simp only [List.find?_cons, hg, hbe]
      rw [beq_iff_eq] at hbe
      by_cases huu : u' = u
      · have hru : (r.1 == u) = true := by rw [beq_iff_eq, hbe, huu]
        rw [if_pos huu]
        simp only [hru, if_true, Option.map_some']
      · have hru : (r.1 == u) = false := by
          rw [beq_eq_false_iff_ne]
          intro hcontra
          exact huu (by rw [← hbe, hcontra])
        rw [if_neg huu]
        simp only [hru, Bool.false_eq_true, if_false, Option.map_some']

theorem cell_eq_getD {f : Frame} {u c : String} {vs : List Value} {i : Nat}
    (h1 : f.row? u = some vs) (h2 : colPos f.cols c = some i) :
    f.cell u c = vs.getD i none := by
  rw [Frame.cell, h1, h2]

theorem cell_setCell_self {f : Frame} {u c : String} {i : Nat} {v : Value} {vs : List Value}
    (hrow : f.row? u = some vs) (hpos : colPos f.cols c = some i) (hwf : f.WF) :
    (f.setCell u c v).cell u c = v := by
  have hrow2 : (f.setCell u c v).row? u = some (setVals f.cols vs c v) := by
    rw [row?_setCell, if_pos rfl, hrow, Option.map_some']
  have hpos2 : colPos (f.setCell u c v).cols c = some i := by
    rw [setCell_cols]; exact hpos
  rw [cell_eq_getD hrow2 hpos2]
  rw [setVals, hpos]
  apply getD_set_self
  have hlen : vs.length = f.cols.length := hwf (u, vs) (row?_some_mem hrow)
  rw [hlen]
  exact colPos_lt hpos

theorem cell_setCell_ne {f : Frame} {u c u' c' : String} {v : Value}
    (hne : ¬(u = u' ∧ c = c')) :
    (f.setCell u' c' v).cell u c = f.cell u c := by
  by_cases huu : u = u'
  · have hcc : c ≠ c' := fun hcontra => hne ⟨huu, hcontra⟩
    rw [Frame.cell, Frame.cell, row?_setCell, if_pos huu, setCell_cols]
    cases hrow : f.row? u with
    | none => rfl
    | some vs =>
      rw [Option.map_some']
      cases hpc : colPos f.cols c with
      | none => rfl
      | some i =>
        show (setVals f.cols vs c' v).getD i none = vs.getD i none
        cases hpc' : colPos f.cols c' with
        | none => rw [setVals, hpc']
        | some j =>
          rw [setVals, hpc']
          apply getD_set_ne
          intro hij
          exact hcc (colPos_inj hpc hpc' hij)
  · rw [Frame.cell, Frame.cell, row?_setCell, if_neg huu, setCell_cols]

theorem cell_foldl_stepWrite_of_not_key {f : Frame} {ts : List Triple} {u c : String}
    (hnk : (u, c) ∉ ts.map keyOf) :
    (ts.foldl stepWrite f).cell u c = f.cell u c := by
  induction ts generalizing f with
  | nil => rfl
  | cons t ts ih =>
    rw [List.map_cons, List.mem_cons] at hnk
    push_neg at hnk
    rw [List.foldl_cons, ih hnk.2, stepWrite]
    apply cell_setCell_ne
    intro ⟨h1, h2⟩
    exact hnk.1 (by rw [keyOf, h1, h2])

theorem cell_foldl_write_last {base : Frame} {l₁ l₂ : List Triple} {u c : String}
    {v : Value} {i : Nat}
    (hwf : base.WF) (hN : base.uids.Nodup) {vs : List Value}
    (hrow : base.row? u = some vs)
    (hpos : colPos base.cols c = some i)
    (hnk : (u, c) ∉ l₂.map keyOf) :
    ((l₁ ++ (u, c, v) :: l₂).foldl stepWrite base).cell u c = v := by
  rw [List.foldl_append, List.foldl_cons]
  rw [cell_foldl_stepWrite_of_not_key hnk]
  have hwf1 : (l₁.foldl stepWrite base).WF := foldl_stepWrite_WF hwf
  have hcols1 : (l₁.foldl stepWrite base).cols = base.cols := foldl_stepWrite_cols _ _
  have huids1 : (l₁.foldl stepWrite base).uids = base.uids := foldl_stepWrite_uids _ _
  have hmem : (u, vs) ∈ base.rows := row?_some_mem hrow
  have hu : u ∈ (l₁.foldl stepWrite base).uids := by
    rw [huids1]
    exact uids_mem_of_mem hmem
  rw [Frame.uids, List.mem_map] at hu
  obtain ⟨r1, hr1, hr1u⟩ := hu
  have hrow1 : (l₁.foldl stepWrite base).row? u = some r1.2 := by
    apply row?_eq_of_nodup_mem
    · rw [huids1]; exact hN
    · rw [show ((u, r1.2) : String × List Value) = r1 from by rw [← hr1u]]
      exact hr1
  exact cell_setCell_self hrow1 (by rw [hcols1]; exact hpos) hwf1

/-! ### Rectangle and melt lemmas -/

theorem mem_meltAll_of {cols : List String} {qs : List RowPair} {t : Triple}
    {is : List Nat} {i : Nat} (hi : i ∈ is) (ht : t ∈ meltBatch cols qs i) :
    t ∈ meltAll cols qs is := by
  induction is with
  | nil => cases hi
  | cons j js ih =>
    rw [meltAll]
    rcases List.mem_cons.mp hi with heq | hmem
    · rw [heq] at ht
      exact List.mem_append_left _ ht
    · exact List.mem_append_right _ (ih hmem)

theorem mem_meltAll_inv {cols : List String} {qs : List RowPair} {t : Triple}
    {is : List Nat} (h : t ∈ meltAll cols qs is) :
    ∃ i ∈ is, t ∈ meltBatch cols qs i := by
  induction is with
  | nil => cases h
  | cons j js ih =>
    rw [meltAll] at h
    rcases List.mem_append.mp h with h1 | h2
    · exact ⟨j, List.mem_cons_self _ _, h1⟩
    · obtain ⟨i, hi, ht⟩ := ih h2
      exact ⟨i, List.mem_cons_of_mem _ hi, ht⟩

theorem meltBatch_snd {cols : List String} {qs : List RowPair} {i : Nat} {t : Triple}
    (h : t ∈ meltBatch cols qs i) : t.2.1 = cols.getD i "" := by
  rw [meltBatch, List.mem_map] at h
  obtain ⟨p, hp, ht⟩ := h
  rw [← ht]

theorem meltBatch_keys (cols : List String) (qs : List RowPair) (i : Nat) :
    (meltBatch cols qs i).map keyOf = qs.map (fun p => (p.1.1, cols.getD i "")) := by
  rw [meltBatch, List.map_map]
  exact List.map_congr_left (fun p _ => rfl)

theorem meltAll_keys_nodup {cols : List String} {qs : List RowPair} {is : List Nat}
    (hqs : (qs.map (fun p => p.1.1)).Nodup) (hisN : is.Nodup)
    (hlt : ∀ i ∈ is, i < cols.length) (hcolsN : cols.Nodup) :
    ((meltAll cols qs is).map keyOf).Nodup := by
  induction is with
  | nil => exact List.nodup_nil
  | cons j js ih =>
    rw [meltAll, List.map_append, List.nodup_append]
    rw [List.nodup_cons] at hisN
    refine ⟨?_, ih hisN.2 (fun i hi => hlt i (List.mem_cons_of_mem _ hi)), ?_⟩
    · rw [meltBatch_keys]
      apply List.Nodup.of_map Prod.fst
      rw [List.map_map]
      exact hqs
    · intro k hk1 hk2
      rw [meltBatch_keys, List.mem_map] at hk1
      obtain ⟨p, hp, hkp⟩ := hk1
      rw [List.mem_map] at hk2
      obtain ⟨t, ht, hkt⟩ := hk2
      obtain ⟨i, hi, hti⟩ := mem_meltAll_inv ht
      have h1 : k.2 = cols.getD j "" := by rw [← hkp]
      have h2 : k.2 = cols.getD i "" := by
        rw [← hkt]
        exact meltBatch_snd hti
      have hij : j = i := by
        apply getD_inj hcolsN (hlt j (List.mem_cons_self _ _))
          (hlt i (List.mem_cons_of_mem _ hi))
        rw [← h1, h2]
      exact hisN.1 (hij ▸ hi)

theorem annotate_keys (ts : List Triple) : (annotate ts).map keyOf = ts.map keyOf := by
  rw [annotate, List.map_map]
  exact List.map_congr_left (fun t _ => rfl)

theorem annotate_mem_none {ts : List Triple} {u c : String}
    (h : (u, c, (none : Value)) ∈ ts) : (u, c, (none : Value)) ∈ annotate ts := by
  rw [annotate, List.mem_map]
  exact ⟨(u, c, none), h, rfl⟩

theorem mem_diffColIdxs {n : Nat} {ps : List RowPair} {i : Nat} {p : RowPair}
    (hi : i < n) (hp : p ∈ ps) (hd : pairDiffAt p i = true) :
    i ∈ diffColIdxs n ps := by
  rw [diffColIdxs, List.mem_filter]
  exact ⟨List.mem_range.mpr hi, List.any_eq_true.mpr ⟨p, hp, hd⟩⟩

theorem mem_diffPairs {n : Nat} {ps : List RowPair} {i : Nat} {p : RowPair}
    (hi : i < n) (hp : p ∈ ps) (hd : pairDiffAt p i = true) :
    p ∈ diffPairs n ps := by
  rw [diffPairs, List.mem_filter]
  exact ⟨hp, List.any_eq_true.mpr ⟨i, List.mem_range.mpr hi, hd⟩⟩

theorem mem_meltBatch_of_mem {cols : List String} {qs : List RowPair} {i : Nat}
    {p : RowPair} (hp : p ∈ qs) :
    (p.1.1, cols.getD i "", if pairDiffAt p i then p.1.2.getD i none else none) ∈
      meltBatch cols qs i := by
  rw [meltBatch, List.mem_map]
  exact ⟨p, hp, rfl⟩

theorem diffColIdxs_nodup (n : Nat) (ps : List RowPair) : (diffColIdxs n ps).Nodup :=
  (List.nodup_range n).filter _

theorem diffColIdxs_lt {n : Nat} {ps : List RowPair} {i : Nat}
    (h : i ∈ diffColIdxs n ps) : i < n := by
  rw [diffColIdxs, List.mem_filter, List.mem_range] at h
  exact h.1

/-! ### Alignment of the shared rows with the old snapshot -/

theorem zip_align_mem {α β : Type} (xs : List (String × α)) (ys : List (String × β))
    (h : xs.map Prod.fst = ys.map Prod.fst) {u : String} {a : α} (hm : (u, a) ∈ xs) :
    ∃ b, ((u, a), (u, b)) ∈ xs.zip ys ∧ (u, b) ∈ ys := by
  induction xs generalizing ys with
  | nil => cases hm
  | cons x xs ih =>
    cases ys with
    | nil => exact absurd h (by simp)
    | cons y ys =>
      rw [List.map_cons, List.map_cons, List.cons.injEq] at h
      rcases List.mem_cons.mp hm with heq | hmem
      · have hy1 : y.1 = u := by rw [← h.1, ← heq]
        refine ⟨y.2, ?_, ?_⟩
        · rw [List.zip_cons_cons, List.mem_cons]
          left
          rw [← heq, Prod.mk.injEq]
          exact ⟨rfl, by rw [← hy1]⟩
        · rw [List.mem_cons]
          left
          rw [← hy1]
      · obtain ⟨b, hb1, hb2⟩ := ih ys h.2 hmem
        exact ⟨b, by rw [List.zip_cons_cons]; exact List.mem_cons_of_mem _ hb1,
          List.mem_cons_of_mem _ hb2⟩

theorem pairs_map_fst {listing old : Frame}
    (halign : (sharedRows listing old).map Prod.fst = old.uids) :
    ((sharedRows listing old).zip old.rows).map Prod.fst = sharedRows listing old := by
  apply List.map_fst_zip
  have hlen : (sharedRows listing old).length = old.rows.length := by
    have hc := congrArg List.length halign
    rw [List.length_map, Frame.uids, List.length_map] at hc
    exact hc
  exact Nat.le_of_eq hlen

theorem diffPairs_uids_nodup {listing old : Frame} {n : Nat}
    (halign : (sharedRows listing old).map Prod.fst = old.uids)
    (holdN : old.uids.Nodup) :
    ((diffPairs n ((sharedRows listing old).zip old.rows)).map
      (fun p => p.1.1)).Nodup := by
  have hsub : (diffPairs n ((sharedRows listing old).zip old.rows)).Sublist
      ((sharedRows listing old).zip old.rows) := List.filter_sublist _
  apply (hsub.map (fun p => p.1.1)).nodup
  rw [show (fun p : RowPair => p.1.1) =
    (Prod.fst ∘ (Prod.fst : RowPair → String × List Value)) from rfl]
  rw [← List.map_map, pairs_map_fst halign, halign]
  exact holdN

theorem cell_some_inv {f : Frame} {u c s : String} (h : f.cell u c = some s) :
    ∃ vs i, f.row? u = some vs ∧ colPos f.cols c = some i ∧ vs.getD i none = some s := by
  cases hr : f.row? u with
  | none =>
    rw [Frame.cell, hr] at h
    exact Option.noConfusion h
  | some vs =>
    cases hp : colPos f.cols c with
    | none =>
      rw [Frame.cell, hr, hp] at h
      exact Option.noConfusion h
    | some i =>
      rw [Frame.cell, hr, hp] at h
      exact ⟨vs, i, rfl, rfl, h⟩

theorem not_mem_presentPairs {cols : List String} {vs : List Value} {c : String} {i : Nat}
    (hN : cols.Nodup) (hpos : colPos cols c = some i) (hv : vs.getD i none = none) :
    c ∉ (presentPairs cols vs).map Prod.fst := by
  intro hmem
  rw [List.mem_map] at hmem
  obtain ⟨q, hq, hqc⟩ := hmem
  rw [presentPairs, List.mem_filterMap] at hq
  obtain ⟨p, hp, hpq⟩ := hq
  cases hp2 : p.2 with
  | none =>
    rw [hp2] at hpq
    exact Option.noConfusion hpq
  | some v =>
    rw [hp2, Option.map_some', Option.some.injEq] at hpq
    have hp1 : p.1 = c := by rw [← hqc, ← hpq]
    rw [List.mem_iff_getElem] at hp
    obtain ⟨k, hk, hpk⟩ := hp
    have hkc : k < cols.length := by
      rw [List.length_zip] at hk
      exact lt_of_lt_of_le hk (min_le_left _ _)
    have hkv : k < vs.length := by
      rw [List.length_zip] at hk
      exact lt_of_lt_of_le hk (min_le_right _ _)
    have hcolk : cols[k] = c := by
      have hfst := congrArg Prod.fst hpk
      rw [List.getElem_zip] at hfst
      rw [hp1] at hfst
      exact hfst
    have hik : i = k := by
      apply getD_inj hN (colPos_lt hpos) hkc
      rw [colPos_getD hpos, List.getD_eq_getElem _ _ hkc, hcolk]
    have hvk : vs[k] = p.2 := by
      have hsnd := congrArg Prod.snd hpk
      rw [List.getElem_zip] at hsnd
      exact hsnd
    rw [hik, List.getD_eq_getElem _ _ hkv, hvk, hp2] at hv
    exact Option.noConfusion hv

theorem buildUpdated_updated_eq (listing old : Frame) :
    (buildUpdatedRun listing old).updated_df =
      (annotate (meltTriples listing.cols ((sharedRows listing old).zip old.rows))).foldl
        stepWrite
        ⟨listing.cols, listing.rows.filter (fun r =>
          (((annotate (meltTriples listing.cols
            ((sharedRows listing old).zip old.rows))).map Prod.fst).contains r.1))⟩ := by
  simp only [buildUpdatedRun]
  exact runUpdates_updated_eq_foldl _ _

/-! ### Claim C10 -/

/-- C10: for every successful diff of well-formed snapshots, a shared uid
whose column value transitions from a present string in the old snapshot
to absent in the new snapshot is included in the updated set; the absent
cell receives no annotation suffix — appending the suffix to an absent
value leaves it absent — and consequently that column is not among the
present columns rendered for that record in the report. -/
theorem c10_present_to_absent_transition (listing old : Frame) (d : DiffResult)
    (u c s : String)
    (h : compare_listing_df listing old = .ok d)
    (hcolsN : listing.cols.Nodup) (hcols : listing.cols ≠ [])
    (huidsN : listing.uids.Nodup) (holdN : old.uids.Nodup) (hwf : listing.WF)
    (huid : listing.hasUid u = true)
    (holdv : old.cell u c = some s) (hnewv : listing.cell u c = none) :
    ∃ F, d.updatedDf = some F ∧ F.hasUid u = true ∧ F.cell u c = none ∧
      ∀ vs, F.row? u = some vs → c ∉ (presentPairs F.cols vs).map Prod.fst := by
  obtain ⟨fin, hr⟩ := compare_ok_run h
  obtain ⟨ovs, i, horow, hopos, hov⟩ := cell_some_inv holdv
  have homem : (u, ovs) ∈ old.rows := row?_some_mem horow
  have holdUid : old.hasUid u = true := hasUid_of_mem homem
  rw [hasUid_iff, Frame.uids, List.mem_map] at huid
  obtain ⟨r, hrmem, hru⟩ := huid
  have hrmem2 : (u, r.2) ∈ listing.rows := by
    rw [show ((u, r.2) : String × List Value) = r from by rw [← hru]]
    exact hrmem
  have hlrow : listing.row? u = some r.2 := row?_eq_of_nodup_mem huidsN hrmem2
  have hne : listing ≠ old := by
    intro he
    rw [he] at hnewv
    rw [hnewv] at holdv
    exact Option.noConfusion holdv
  have hshmem : (u, r.2) ∈ sharedRows listing old :=
    List.mem_filter.mpr ⟨hrmem2, holdUid⟩
  rcases compareRun_ok_inv hr with ⟨heq, -⟩ | ⟨-, -, hupd⟩
  · exact absurd heq hne
  rcases hupd with ⟨hempty, -⟩ | ⟨-, hceq, halign, hsome⟩
  · exfalso
    rw [isEmptyDf_mk_of_cols_ne_nil _ _ hcols, List.isEmpty_iff] at hempty
    rw [hempty] at hshmem
    cases hshmem
  have hlpos : colPos listing.cols c = some i := by rw [hceq]; exact hopos
  have hv0 : r.2.getD i none = none := by
    rw [← cell_eq_getD hlrow hlpos]
    exact hnewv
  obtain ⟨b, hpair, hbmem⟩ :=
    zip_align_mem (sharedRows listing old) old.rows halign hshmem
  have hb : b = ovs := nodup_unique_assoc holdN homem hbmem
  rw [hb] at hpair
  have hdiff : pairDiffAt ((u, r.2), (u, ovs)) i = true := by
    show cellDiff (r.2.getD i none) (ovs.getD i none) = true
    rw [hv0, hov]
    rfl
  have hin : i < listing.cols.length := colPos_lt hlpos
  have hq : ((u, r.2), (u, ovs)) ∈
      diffPairs listing.cols.length ((sharedRows listing old).zip old.rows) :=
    mem_diffPairs hin hpair hdiff
  have hiin : i ∈
      diffColIdxs listing.cols.length ((sharedRows listing old).zip old.rows) :=
    mem_diffColIdxs hin hpair hdiff
  have ht0 : (u, c, (none : Value)) ∈ meltBatch listing.cols
      (diffPairs listing.cols.length ((sharedRows listing old).zip old.rows)) i := by
    rw [meltBatch, List.mem_map]
    refine ⟨((u, r.2), (u, ovs)), hq, ?_⟩
    show (u, listing.cols.getD i "",
      if pairDiffAt ((u, r.2), (u, ovs)) i then r.2.getD i none else none) =
      (u, c, (none : Value))
    rw [colPos_getD hlpos, if_pos hdiff, hv0]
  have ht1 : (u, c, (none : Value)) ∈
      meltTriples listing.cols ((sharedRows listing old).zip old.rows) := by
    rw [meltTriples]
    exact mem_meltAll_of hiin ht0
  have ht2 := annotate_mem_none ht1
  have hkN : ((annotate (meltTriples listing.cols
      ((sharedRows listing old).zip old.rows))).map keyOf).Nodup := by
    rw [annotate_keys, meltTriples]
    apply meltAll_keys_nodup
    · exact diffPairs_uids_nodup halign holdN
    · exact diffColIdxs_nodup _ _
    · intro j hj
      exact diffColIdxs_lt hj
    · exact hcolsN
  rw [buildUpdated_updated_eq] at hsome
  set annTs := annotate (meltTriples listing.cols
    ((sharedRows listing old).zip old.rows)) with hA
  set base : Frame := ⟨listing.cols, listing.rows.filter (fun r =>
    ((annTs.map Prod.fst).contains r.1))⟩ with hB
  obtain ⟨l₁, l₂, hsplit⟩ := List.append_of_mem ht2
  have hnk : (u, c) ∉ l₂.map keyOf := by
    rw [hsplit, List.map_append, List.map_cons, List.nodup_append] at hkN
    obtain ⟨-, hcons, -⟩ := hkN
    rw [List.nodup_cons] at hcons
    exact hcons.1
  have hbmem2 : (u, r.2) ∈ base.rows := by
    apply List.mem_filter.mpr
    refine ⟨hrmem2, ?_⟩
    rw [List.contains_eq_any_beq, List.any_eq_true]
    exact ⟨u, List.mem_map.mpr ⟨(u, c, none), ht2, rfl⟩, by simp⟩
  have hbwf : base.WF := fun r0 hr0 => hwf r0 (List.mem_filter.mp hr0).1
  have hbaseN : base.uids.Nodup := by
    have hsub : ((listing.rows.filter (fun r =>
        ((annTs.map Prod.fst).contains r.1))).map Prod.fst).Sublist
        (listing.rows.map Prod.fst) := (List.filter_sublist _).map Prod.fst
    exact hsub.nodup huidsN
  have hbrow : base.row? u = some r.2 := row?_eq_of_nodup_mem hbaseN hbmem2
  have hbpos : colPos base.cols c = some i := hlpos
  have hcell : (annTs.foldl stepWrite base).cell u c = none := by
    rw [hsplit]
    exact cell_foldl_write_last hbwf hbaseN hbrow hbpos hnk
  refine ⟨annTs.foldl stepWrite base, hsome, ?_, hcell, ?_⟩
  · rw [Frame.hasUid, foldl_stepWrite_uids]
    rw [List.contains_eq_any_beq, List.any_eq_true]
    exact ⟨u, uids_mem_of_mem hbmem2, by simp⟩
  · intro vs hvs
    have hFcols : (annTs.foldl stepWrite base).cols = listing.cols :=
      foldl_stepWrite_cols _ _
    have hpos2 : colPos (annTs.foldl stepWrite base).cols c = some i := by
      rw [hFcols]
      exact hlpos
    have hvd : vs.getD i none = none := by
      rw [← cell_eq_getD hvs hpos2]
      exact hcell
    rw [hFcols]
    exact not_mem_presentPairs hcolsN hlpos hvd

/-- New snapshot whose value in column b has become absent. -/
def absNew : Frame := ⟨["a", "b"], [("w1", [some "x", none])]⟩

/-- Old snapshot with a present value in column b. -/
def absOld : Frame := ⟨["a", "b"], [("w1", [some "x", some "y"])]⟩

/-- C10 witness: the present-to-absent transition at a concrete pair. -/
theorem c10_witness :
    compare_listing_df absNew absOld = .ok ⟨none, some absNew⟩ ∧
    absNew.cols.Nodup ∧ absNew.cols ≠ [] ∧ absNew.uids.Nodup ∧ absOld.uids.Nodup ∧
    absNew.WF ∧ absNew.hasUid "w1" = true ∧
    absOld.cell "w1" "b" = some "y" ∧ absNew.cell "w1" "b" = none ∧
    (∃ F, (⟨none, some absNew⟩ : DiffResult).updatedDf = some F ∧
      F.hasUid "w1" = true ∧ F.cell "w1" "b" = none ∧
      ∀ vs, F.row? "w1" = some vs → "b" ∉ (presentPairs F.cols vs).map Prod.fst) :=
  ⟨by rfl, by decide, by decide, by decide, by decide,
   by simp only [Frame.WF]; decide, by decide,
   by rfl, by rfl,
   c10_present_to_absent_transition absNew absOld ⟨none, some absNew⟩ "w1" "b" "y"
     (by rfl) (by decide) (by decide) (by decide) (by decide)
     (by simp only [Frame.WF]; decide) (by decide) (by rfl) (by rfl)⟩

/-! ### Claim C5 -/

theorem zip_align_fst {α β : Type} (xs : List (String × α)) (ys : List (String × β))
    (h : xs.map Prod.fst = ys.map Prod.fst) :
    ∀ p ∈ xs.zip ys, p.1.1 = p.2.1 := by
  induction xs generalizing ys with
  | nil =>
    intro p hp
    rw [List.zip_nil_left] at hp
    cases hp
  | cons x xs ih =>
    cases ys with
    | nil =>
      intro p hp
      rw [List.zip_nil_right] at hp
      cases hp
    | cons y ys =>
      rw [List.map_cons, List.map_cons, List.cons.injEq] at h
      intro p hp
      rw [List.zip_cons_cons, List.mem_cons] at hp
      rcases hp with heq | hmem
      · rw [heq]
        exact h.1
      · exact ih ys h.2 p hmem

theorem colPos_get_of_nodup {cols : List String} (hN : cols.Nodup) (i : Nat)
    (h : i < cols.length) : colPos cols (cols.get ⟨i, h⟩) = some i := by
  induction cols generalizing i with
  | nil => exact absurd h (Nat.not_lt_zero _)
  | cons c0 cs ih =>
    rw [List.nodup_cons] at hN
    cases i with
    | zero => rw [show (c0 :: cs).get ⟨0, h⟩ = c0 from rfl, colPos, if_pos rfl]
    | succ n =>
      have hlt : n < cs.length := Nat.lt_of_succ_lt_succ h
      have hget : (c0 :: cs).get ⟨n + 1, h⟩ = cs.get ⟨n, hlt⟩ := rfl
      rw [hget, colPos, if_neg ?_, ih hN.2 n hlt, Option.map_some']
      intro hcontra
      exact hN.1 (hcontra ▸ List.get_mem cs n hlt)

/-- When the shared rows are label-aligned with the old snapshot and the
shared records agree with the old ones on every column value, no aligned
pair differs in any column of the (duplicate-free) schema. -/
theorem pairDiffAt_false_of_agree {listing old : Frame}
    (hcolsN : listing.cols.Nodup) (huidsN : listing.uids.Nodup)
    (holdN : old.uids.Nodup) (hceq : listing.cols = old.cols)
    (halign : (sharedRows listing old).map Prod.fst = old.uids)
    (hagree : ∀ u ∈ listing.uids, old.hasUid u = true →
      ∀ c ∈ listing.cols, listing.cell u c = old.cell u c)
    {p : RowPair} (hp : p ∈ (sharedRows listing old).zip old.rows)
    {i : Nat} (hi : i < listing.cols.length) :
    pairDiffAt p i = false := by
  have hfst : p.1.1 = p.2.1 := zip_align_fst _ _ halign p hp
  have hpeta : (p.1, p.2) ∈ (sharedRows listing old).zip old.rows := by
    rw [Prod.mk.eta]
    exact hp
  obtain ⟨hp1, hp2⟩ := List.of_mem_zip hpeta
  have hp1l : p.1 ∈ listing.rows := (List.mem_filter.mp hp1).1
  have hUl : listing.hasUid p.1.1 = true := hasUid_of_mem hp1l
  have hUo : old.hasUid p.1.1 = true := by
    rw [hfst]
    exact hasUid_of_mem hp2
  have hr1 : listing.row? p.1.1 = some p.1.2 := by
    apply row?_eq_of_nodup_mem huidsN
    rw [Prod.mk.eta]
    exact hp1l
  have hr2 : old.row? p.1.1 = some p.2.2 := by
    apply row?_eq_of_nodup_mem holdN
    rw [hfst, Prod.mk.eta]
    exact hp2
  have hpos1 : colPos listing.cols (listing.cols.get ⟨i, hi⟩) = some i :=
    colPos_get_of_nodup hcolsN i hi
  have hpos2 : colPos old.cols (listing.cols.get ⟨i, hi⟩) = some i := by
    rw [← hceq]
    exact hpos1
  have he1 : listing.cell p.1.1 (listing.cols.get ⟨i, hi⟩) = p.1.2.getD i none :=
    cell_eq_getD hr1 hpos1
  have he2 : old.cell p.1.1 (listing.cols.get ⟨i, hi⟩) = p.2.2.getD i none :=
    cell_eq_getD hr2 hpos2
  have heq : p.1.2.getD i none = p.2.2.getD i none := by
    rw [← he1, ← he2]
    exact hagree p.1.1 (hasUid_iff.mp hUl) hUo (listing.cols.get ⟨i, hi⟩)
      (List.get_mem listing.cols i hi)
  rw [pairDiffAt, heq]
  simp [cellDiff]

theorem diffColIdxs_nil_of_agree {listing old : Frame}
    (hcolsN : listing.cols.Nodup) (huidsN : listing.uids.Nodup)
    (holdN : old.uids.Nodup) (hceq : listing.cols = old.cols)
    (halign : (sharedRows listing old).map Prod.fst = old.uids)
    (hagree : ∀ u ∈ listing.uids, old.hasUid u = true →
      ∀ c ∈ listing.cols, listing.cell u c = old.cell u c) :
    diffColIdxs listing.cols.length ((sharedRows listing old).zip old.rows) = [] := by
  rw [diffColIdxs, List.filter_eq_nil_iff]
  intro i hi
  rw [List.mem_range] at hi
  simp only [Bool.not_eq_true, List.any_eq_false]
  intro p hp
  rw [pairDiffAt_false_of_agree hcolsN huidsN holdN hceq halign hagree hp hi]

/-- C5 (amended): for every pair of non-identical, uid-unique snapshots
with a duplicate-free non-empty schema whose shared-uid records agree
with the old snapshot on every column value (e.g. the only difference is
newly added records), the diff behaves as follows.  If no uid is shared,
it succeeds with updated = None.  If the shared pool is non-empty and
label-aligned with the old snapshot (same columns and exactly the old
uid sequence, i.e. no deletion and no reordering), it succeeds and the
updated result holds no records — but it is a present empty record set,
not None.  Otherwise (a deletion, a reordering of retained uids, or a
schema mismatch) it does fail, with the identically-labeled error.  So
the original updated-is-None-and-no-failure claim holds only in the
no-shared-uid case. -/
theorem c5_agreeing_shared_case_analysis (listing old : Frame)
    (hne : listing ≠ old) (hcols : listing.cols ≠ [])
    (hcolsN : listing.cols.Nodup) (huidsN : listing.uids.Nodup)
    (holdN : old.uids.Nodup)
    (hagree : ∀ u ∈ listing.uids, old.hasUid u = true →
      ∀ c ∈ listing.cols, listing.cell u c = old.cell u c) :
    (sharedRows listing old = [] →
      compare_listing_df listing old =
        .ok ⟨if (newRecords listing old).isEmpty then none
             else some ⟨listing.cols, newRecords listing old⟩, none⟩) ∧
    (sharedRows listing old ≠ [] →
      listing.cols = old.cols → (sharedRows listing old).map Prod.fst = old.uids →
      compare_listing_df listing old =
        .ok ⟨if (newRecords listing old).isEmpty then none
             else some ⟨listing.cols, newRecords listing old⟩,
             some ⟨listing.cols, []⟩⟩) ∧
    (sharedRows listing old ≠ [] →
      ¬(listing.cols = old.cols ∧ (sharedRows listing old).map Prod.fst = old.uids) →
      compare_listing_df listing old = .error labelError) := by
  refine ⟨?_, ?_, ?_⟩
  · intro hshared
    rw [compare_listing_df, compareRun, if_neg hne]
    have hempty : (Frame.mk listing.cols (sharedRows listing old)).isEmptyDf = true := by
      rw [isEmptyDf_mk_of_cols_ne_nil _ _ hcols, hshared]
      rfl
    rw [if_pos hempty, isEmptyDf_mk_of_cols_ne_nil _ _ hcols]
    rfl
  · intro hshared hceq halign
    have hshne : (Frame.mk listing.cols (sharedRows listing old)).isEmptyDf = false := by
      rw [isEmptyDf_mk_of_cols_ne_nil _ _ hcols]
      cases hcase : sharedRows listing old with
      | nil => exact absurd hcase hshared
      | cons r rs => rfl
    have hlab : listing.cols = old.cols ∧
        (sharedRows listing old).map Prod.fst = old.uids := ⟨hceq, halign⟩
    have hnil : diffColIdxs listing.cols.length
        ((sharedRows listing old).zip old.rows) = [] :=
      diffColIdxs_nil_of_agree hcolsN huidsN holdN hceq halign hagree
    have hbuild : (buildUpdatedRun listing old).updated_df = ⟨listing.cols, []⟩ := by
      simp only [buildUpdatedRun]
      rw [meltTriples, hnil]
      simp only [meltAll, annotate, List.map_nil]
      rw [runUpdates]
      simp [List.filter_eq_nil_iff]
    rw [compare_listing_df, compareRun, if_neg hne]
    simp only [hshne, Bool.false_eq_true, if_false, if_pos hlab]
    rw [hbuild, isEmptyDf_mk_of_cols_ne_nil _ _ hcols]
    rfl
  · intro hshared hcond
    have hshne : (Frame.mk listing.cols (sharedRows listing old)).isEmptyDf = false := by
      rw [isEmptyDf_mk_of_cols_ne_nil _ _ hcols]
      cases hcase : sharedRows listing old with
      | nil => exact absurd hcase hshared
      | cons r rs => rfl
    rw [compare_listing_df, compareRun, if_neg hne]
    simp only [hshne, Bool.false_eq_true, if_false, if_neg hcond]
    rfl

/-- C5 witness: the case analysis instantiated at the concrete pair whose
only difference is the added record u2; the aligned branch fires and
yields the present empty updated set. -/
theorem c5_witness :
    newTwo ≠ oldOne ∧ newTwo.cols ≠ [] ∧ newTwo.cols.Nodup ∧
    newTwo.uids.Nodup ∧ oldOne.uids.Nodup ∧
    (∀ u ∈ newTwo.uids, oldOne.hasUid u = true →
      ∀ c ∈ newTwo.cols, newTwo.cell u c = oldOne.cell u c) ∧
    ((sharedRows newTwo oldOne = [] →
      compare_listing_df newTwo oldOne =
        .ok ⟨if (newRecords newTwo oldOne).isEmpty then none
             else some ⟨newTwo.cols, newRecords newTwo oldOne⟩, none⟩) ∧
     (sharedRows newTwo oldOne ≠ [] →
      newTwo.cols = oldOne.cols → (sharedRows newTwo oldOne).map Prod.fst = oldOne.uids →
      compare_listing_df newTwo oldOne =
        .ok ⟨if (newRecords newTwo oldOne).isEmpty then none
             else some ⟨newTwo.cols, newRecords newTwo oldOne⟩,
             some ⟨newTwo.cols, []⟩⟩) ∧
     (sharedRows newTwo oldOne ≠ [] →
      ¬(newTwo.cols = oldOne.cols ∧ (sharedRows newTwo oldOne).map Prod.fst = oldOne.uids) →
      compare_listing_df newTwo oldOne = .error labelError)) :=
  ⟨by decide, by decide, by decide, by decide, by decide, by decide,
   c5_agreeing_shared_case_analysis newTwo oldOne (by decide) (by decide)
     (by decide) (by decide) (by decide) (by decide)⟩

end TwNotifier
